import Mathlib

/-!
Shallow embedding of the PrismX user-management backend.

The definitions below are translated from the repository's TypeScript
sources: the RBAC module (src/middleware/rbac.ts), the user service
(src/services/user.service.ts), the auth service
(src/services/auth.service.ts) and the user route handlers
(src/routes/user.route.ts).  The persistence layer (Prisma over MongoDB)
is modelled as a list of user records together with explicit evaluation
of where-clauses, projections ("select" trees), pagination and sorting;
the external collaborators (bcrypt hashing, JWT signing, the database's
sort) are threaded in as function parameters.  JavaScript machine
numbers appear here as Nat (all claims restrict them to non-negative
integers); JavaScript string truthiness (empty string is falsy) is
translated explicitly at each use site.
-/

namespace PrismX

/-! ## Roles, permissions, RBAC (src/middleware/rbac.ts) -/

inductive Role where
  | admin
  | driver
  | passenger
deriving DecidableEq, Repr

inductive Permission where
  | readUsers
  | writeUsers
  | deleteUsers
  | adminAll
deriving DecidableEq, Repr

/-- `ROLE_PERMISSIONS`: admin gets everything, driver and passenger read only. -/
def rolePermissions : Role → List Permission
  | .admin => [.readUsers, .writeUsers, .deleteUsers, .adminAll]
  | .driver => [.readUsers]
  | .passenger => [.readUsers]

/-- `rbac.hasPermission`: the role's set contains the permission or the wildcard. -/
def hasPermission (r : Role) (p : Permission) : Bool :=
  (rolePermissions r).contains p || (rolePermissions r).contains .adminAll

/-- `rbac.isRoleAllowed`: plain membership test. -/
def isRoleAllowed (r : Role) (allowed : List Role) : Bool :=
  allowed.contains r

/-- The errors thrown by the service-level RBAC wrappers. -/
inductive Thrown where
  | insufficientPermissions
  | authenticationRequired
deriving DecidableEq, Repr

/-- `checkPermission`: throws "Insufficient permissions" when the check fails. -/
def checkPermission (r : Role) (p : Permission) : Except Thrown Unit :=
  if hasPermission r p then .ok () else .error .insufficientPermissions

/-- `checkRole`: throws "Insufficient permissions" when the role is not allowed. -/
def checkRole (r : Role) (allowed : List Role) : Except Thrown Unit :=
  if isRoleAllowed r allowed then .ok () else .error .insufficientPermissions

/-- `requireAdminPermission`: missing role throws "Authentication required",
otherwise the acting role must be `admin`. -/
def requireAdminPermission : Option Role → Except Thrown Unit
  | none => .error .authenticationRequired
  | some r => checkRole r [.admin]

/-- `requireWritePermission`: missing role throws, otherwise needs `write:users`. -/
def requireWritePermission : Option Role → Except Thrown Unit
  | none => .error .authenticationRequired
  | some r => checkPermission r .writeUsers

/-- `requireDeletePermission`: missing role throws, otherwise needs `delete:users`. -/
def requireDeletePermission : Option Role → Except Thrown Unit
  | none => .error .authenticationRequired
  | some r => checkPermission r .deleteUsers

/-! ## The user record (prisma User model) -/

inductive Status where
  | active
  | inactive
  | banned
deriving DecidableEq, Repr

def roleStr : Role → String
  | .admin => "admin"
  | .driver => "driver"
  | .passenger => "passenger"

def statusStr : Status → String
  | .active => "active"
  | .inactive => "inactive"
  | .banned => "banned"

def parseRole (s : String) : Option Role :=
  if s == "admin" then some .admin
  else if s == "driver" then some .driver
  else if s == "passenger" then some .passenger
  else none

def parseStatus (s : String) : Option Status :=
  if s == "active" then some .active
  else if s == "inactive" then some .inactive
  else if s == "banned" then some .banned
  else none

structure Metadata where
  address : Option String
  phone : Option String
  age : Option Nat
  gender : Option String
deriving DecidableEq, Repr

structure User where
  id : String
  firstName : String
  lastName : String
  middleName : Option String
  email : String
  password : String
  role : Role
  status : Status
  avatar : Option String
  metadata : Option Metadata
  isDeleted : Bool
  createdAt : Nat
  updatedAt : Nat
deriving DecidableEq, Repr

/-- The database: the persisted user collection. -/
abbrev DB := List User

/-! ## JSON-like result values

Projected records are JSON objects; we represent the values the API
returns with a small value type (dates and ages appear as `vNat`). -/

inductive Value where
  | vNull
  | vBool (b : Bool)
  | vNat (n : Nat)
  | vStr (s : String)
  | vObj (fields : List (String × Value))

/-- A projected record: field name to value, in selection order. -/
abbrev Row := List (String × Value)

def optStr : Option String → Value
  | none => .vNull
  | some s => .vStr s

def optNat : Option Nat → Value
  | none => .vNull
  | some n => .vNat n

def metaRow (m : Metadata) : Row :=
  [("address", optStr m.address), ("phone", optStr m.phone),
   ("age", optNat m.age), ("gender", optStr m.gender)]

def metaValue (m : Metadata) : String → Option Value
  | "address" => some (optStr m.address)
  | "phone" => some (optStr m.phone)
  | "age" => some (optNat m.age)
  | "gender" => some (optStr m.gender)
  | _ => none

/-- The value of a scalar (or whole-composite) user field, by Prisma name;
`none` for a name that is not a field of the model. -/
def scalarValue (u : User) : String → Option Value
  | "id" => some (.vStr u.id)
  | "firstName" => some (.vStr u.firstName)
  | "lastName" => some (.vStr u.lastName)
  | "middleName" => some (optStr u.middleName)
  | "email" => some (.vStr u.email)
  | "password" => some (.vStr u.password)
  | "role" => some (.vStr (roleStr u.role))
  | "status" => some (.vStr (statusStr u.status))
  | "avatar" => some (optStr u.avatar)
  | "metadata" => some (match u.metadata with
      | none => .vNull
      | some m => .vObj (metaRow m))
  | "isDeleted" => some (.vBool u.isDeleted)
  | "createdAt" => some (.vNat u.createdAt)
  | "updatedAt" => some (.vNat u.updatedAt)
  | _ => none

/-! ## Association-list helpers

JavaScript objects built key by key are modelled as association lists;
assigning to a key replaces an existing binding in place, otherwise it
appends a new one (insertion order is preserved, as in JS). -/

def upsertVal {α : Type} : List (String × α) → String → α → List (String × α)
  | [], k, v => [(k, v)]
  | p :: t, k, v => if p.1 == k then (k, v) :: t else p :: upsertVal t k v

def lookupVal {α : Type} (l : List (String × α)) (k : String) : Option α :=
  (l.find? (fun p => p.1 == k)).map (fun p => p.2)

/-! ## Character/string helpers

`String.startsWith`, `String.replace(p, "")`, `split`, `trim` and the
case-insensitive substring test (`contains`, `mode: "insensitive"`) are
implemented structurally on the character lists underlying the strings,
so that they are both executable and kernel-reducible. -/

/-- `headMatches needle hay`: `needle` is an initial segment of `hay`. -/
def headMatches : List Char → List Char → Bool
  | [], _ => true
  | _ :: _, [] => false
  | a :: as, b :: bs => a == b && headMatches as bs

/-- `occursIn needle hay`: `needle` occurs contiguously inside `hay`. -/
def occursIn (needle : List Char) : List Char → Bool
  | [] => headMatches needle []
  | c :: cs => headMatches needle (c :: cs) || occursIn needle cs

/-- `s.startsWith p` of JS. -/
def strHasLeading (p s : String) : Bool := headMatches p.data s.data

/-- `key.replace("filter_", "")` for keys that start with `filter_`:
the first occurrence is the 7-character prefix itself, so this is
dropping 7 characters. -/
def stripSeven (k : String) : String := String.mk (k.data.drop 7)

def filterKeyStart : String := "filter_"

def isWsChar (c : Char) : Bool :=
  c == Char.ofNat 32 || c == Char.ofNat 9 || c == Char.ofNat 10 || c == Char.ofNat 13

def skipWs : List Char → List Char
  | [] => []
  | c :: cs => if isWsChar c then skipWs cs else c :: cs

/-- JS `s.trim()`: drop leading and trailing whitespace. -/
def strTrim (s : String) : String :=
  String.mk ((skipWs ((skipWs s.data).reverse)).reverse)

/-- JS `s.split(sep)` for a one-character separator: always returns at
least one (possibly empty) piece. -/
def splitOnChar (sep : Char) : List Char → List (List Char)
  | [] => [[]]
  | d :: ds =>
    match splitOnChar sep ds with
    | [] => [[]]
    | g :: gs => if d == sep then [] :: g :: gs else (d :: g) :: gs

def strSplitOn (sep : Char) (s : String) : List String :=
  (splitOnChar sep s.data).map String.mk

def lowerChars (cs : List Char) : List Char := cs.map Char.toLower

/-- Prisma `contains` with `mode: "insensitive"`: case-insensitive
substring test. -/
def containsCI (hay needle : String) : Bool :=
  occursIn (lowerChars needle.data) (lowerChars hay.data)

/-! ## The field-selection ("select tree") builder

`getAllUsers`/`getUserById` turn the comma-separated `fields` parameter
into a nested Prisma `select` object via a `reduce` seeded with
`id: true`.  A tree node is either `true` (a leaf, include the field)
or an object `select: children`.  The JS code has a latent crash: when
a path segment is already bound to the boolean `true`, it reads
`.select` off it (yielding `undefined`) and then dereferences that,
which throws a TypeError; `insertChain` returns `.error ()` there. -/

inductive SelVal where
  | leaf
  | node (children : List (String × SelVal))

abbrev Sel := List (String × SelVal)

/-- Insert one dot-split field path into a selection object, following the
reduce body of `getAllUsers`/`getUserById` (lines 236-255 of the user
service).  The `[k]` case is both `acc[parts[0]] = true` for plain tokens
and the final `current[children[last]] = true` assignment; a segment
whose current binding is the boolean `true` makes the JS code dereference
`undefined` and throw. -/
def insertChain : Sel → List String → Except Unit Sel
  | acc, [] => .ok acc
  | acc, [k] => .ok (upsertVal acc k .leaf)
  | acc, k :: c :: rest =>
    match lookupVal acc k with
    | none =>
      match insertChain [] (c :: rest) with
      | .error e => .error e
      | .ok sub => .ok (upsertVal acc k (.node sub))
    | some (.node sub) =>
      match insertChain sub (c :: rest) with
      | .error e => .error e
      | .ok sub' => .ok (upsertVal acc k (.node sub'))
    | some .leaf => .error ()

/-- The reduce over the comma-split tokens, seeded with `id: true`;
each token is trimmed and then split on `"."`. -/
def buildSelGo : List String → Sel → Except Unit Sel
  | [], acc => .ok acc
  | t :: ts, acc =>
    match insertChain acc (strSplitOn '.' (strTrim t)) with
    | .error e => .error e
    | .ok acc' => buildSelGo ts acc'

def tokensOf (s : String) : List String := strSplitOn ',' s

def buildSel (toks : List String) : Except Unit Sel :=
  buildSelGo toks [("id", .leaf)]

/-- `fieldSelections`: absent or empty (JS-falsy) `fields` selects only
`id`; otherwise the reduce over the comma-split tokens. -/
def fieldSelections (fields : Option String) : Except Unit Sel :=
  match fields with
  | none => .ok [("id", .leaf)]
  | some s => if s == "" then .ok [("id", .leaf)] else buildSel (tokensOf s)

/-! ## Applying a selection to a record (the Prisma `select` semantics)

A leaf includes the field's value (the whole composite for `metadata`);
a nested select is only valid under `metadata` with leaf children naming
its sub-fields; anything else is a query-validation error. -/

def validMetaSel (ch : Sel) : Bool :=
  ch.all (fun c =>
    (match c.2 with
     | .leaf => true
     | .node _ => false) &&
    (c.1 == "address" || c.1 == "phone" || c.1 == "age" || c.1 == "gender"))

def selectEntry (u : User) : String × SelVal → Except Unit (String × Value)
  | (k, .leaf) =>
    match scalarValue u k with
    | some v => .ok (k, v)
    | none => .error ()
  | (k, .node ch) =>
    if k == "metadata" && validMetaSel ch then
      .ok (k, match u.metadata with
              | none => .vNull
              | some m => .vObj (ch.map (fun c => (c.1, (metaValue m c.1).getD .vNull))))
    else .error ()

/-- Effectful map used for projections and row construction (errors
abort the whole database call, as a thrown Prisma error would). -/
def mapRows {α β : Type} (f : α → Except Unit β) : List α → Except Unit (List β)
  | [] => .ok []
  | a :: as =>
    match f a with
    | .error e => .error e
    | .ok b =>
      match mapRows f as with
      | .error e => .error e
      | .ok bs => .ok (b :: bs)

def applySelect (sel : Sel) (u : User) : Except Unit Row :=
  mapRows (selectEntry u) sel

/-! ## The where clause of `getAllUsers`

The JS object
`{ isDeleted: false, ...(query ? { OR: [...] } : {}), ...(filters || {}) }`
is an association list: the fixed not-soft-deleted predicate, the
free-text-search disjunction under the key `OR` when `query` is truthy,
and then each dynamic filter assigned over it (a filter whose field name
collides with an existing key replaces that binding, as JS spread does). -/

inductive WhereVal where
  | wBool (b : Bool)
  | wSearch (q : String)
  | wStr (s : String)

abbrev Where := List (String × WhereVal)

/-- The `OR` of case-insensitive `contains` over firstName, lastName,
middleName and email (a null middleName matches nothing). -/
def matchesSearch (u : User) (q : String) : Bool :=
  containsCI u.firstName q || containsCI u.lastName q ||
  (match u.middleName with
   | some m => containsCI m q
   | none => false) ||
  containsCI u.email q

def buildWhere (query : Option String) (filters : Option (List (String × String))) : Where :=
  let base : Where := [("isDeleted", .wBool false)]
  let base : Where :=
    match query with
    | none => base
    | some q => if q == "" then base else base ++ [("OR", .wSearch q)]
  match filters with
  | none => base
  | some fs => fs.foldl (fun acc p => upsertVal acc p.1 (.wStr p.2)) base

/-- Evaluate a string equality filter on a field, by Prisma name.  A
string value against a non-string field (or an unknown field, or an
invalid enum literal) is a Prisma query-validation error, which aborts
the whole call. -/
def evalStrFilter (u : User) (f v : String) : Except Unit Bool :=
  match f with
  | "id" => .ok (u.id == v)
  | "firstName" => .ok (u.firstName == v)
  | "lastName" => .ok (u.lastName == v)
  | "email" => .ok (u.email == v)
  | "password" => .ok (u.password == v)
  | "middleName" => .ok (u.middleName == some v)
  | "avatar" => .ok (u.avatar == some v)
  | "role" =>
    match parseRole v with
    | some r => .ok (u.role == r)
    | none => .error ()
  | "status" =>
    match parseStatus v with
    | some st => .ok (u.status == st)
    | none => .error ()
  | _ => .error ()

def evalWhereEntry (u : User) : String × WhereVal → Except Unit Bool
  | (k, .wBool b) => if k == "isDeleted" then .ok (u.isDeleted == b) else .error ()
  | (k, .wSearch q) => if k == "OR" then .ok (matchesSearch u q) else .error ()
  | (k, .wStr v) => evalStrFilter u k v

/-- A record matches a where clause when every entry holds (Prisma's
implicit AND over the object's keys). -/
def evalWhere (u : User) : Where → Except Unit Bool
  | [] => .ok true
  | e :: rest =>
    match evalWhereEntry u e with
    | .error x => .error x
    | .ok b =>
      match evalWhere u rest with
      | .error x => .error x
      | .ok c => .ok (b && c)

/-- `findMany`/`count` with a where clause: the matching records in
collection order (an invalid clause aborts the call). -/
def matchedUsers : DB → Where → Except Unit (List User)
  | [], _ => .ok []
  | u :: rest, w =>
    match evalWhere u w with
    | .error e => .error e
    | .ok b =>
      match matchedUsers rest w with
      | .error e => .error e
      | .ok tail => .ok (if b then u :: tail else tail)

/-! ## A JSON model for `JSON.parse` and `orderBy`

`getAllUsers` feeds the raw `sort` string to `JSON.parse` when it starts
with an opening brace.  `JSON.parse` is an external collaborator (the JS
runtime); it is modelled here by a small recursive-descent parser over
the JSON fragment the sort feature can meaningfully use: null, booleans,
integer numbers, escape-free strings, arrays and objects, with
whitespace.  A parse failure is a thrown SyntaxError, i.e. `none`. -/

inductive Json where
  | null
  | jbool (b : Bool)
  | num (n : Int)
  | str (s : String)
  | arr (elems : List Json)
  | obj (fields : List (String × Json))

def quoteChar : Char := Char.ofNat 34
def backslashChar : Char := Char.ofNat 92
def lbraceChar : Char := Char.ofNat 123
def rbraceChar : Char := Char.ofNat 125
def lbrackChar : Char := Char.ofNat 91
def rbrackChar : Char := Char.ofNat 93

/-- The one-character string holding an opening brace. -/
def lbraceStr : String := String.mk [lbraceChar]

/-- Parse a string body after the opening quote (escapes unsupported in
this model). -/
def parseStrBody : List Char → Option (String × List Char)
  | [] => none
  | c :: cs =>
    if c == quoteChar then some ("", cs)
    else if c == backslashChar then none
    else
      match parseStrBody cs with
      | some (s, rest) => some (String.mk (c :: s.data), rest)
      | none => none

def takeDigits : List Char → List Char × List Char
  | [] => ([], [])
  | c :: cs =>
    if c.isDigit then
      let r := takeDigits cs
      (c :: r.1, r.2)
    else ([], c :: cs)

def digitsToNat (ds : List Char) : Nat :=
  ds.foldl (fun a c => a * 10 + (c.toNat - 48)) 0

def parseNum : List Char → Option (Json × List Char)
  | [] => none
  | c :: rest =>
    if c == '-' then
      match takeDigits rest with
      | ([], _) => none
      | (ds, rem) => some (.num (-(digitsToNat ds : Int)), rem)
    else
      match takeDigits (c :: rest) with
      | ([], _) => none
      | (ds, rem) => some (.num (digitsToNat ds), rem)

def dropLit (lit : List Char) (cs : List Char) : Option (List Char) :=
  if headMatches lit cs then some (cs.drop lit.length) else none

def nullLit : List Char := "null".data
def trueLit : List Char := "true".data
def falseLit : List Char := "false".data

mutual

def parseVal : Nat → List Char → Option (Json × List Char)
  | 0, _ => none
  | fuel + 1, cs0 =>
    let cs := skipWs cs0
    match dropLit nullLit cs with
    | some rest => some (.null, rest)
    | none =>
      match dropLit trueLit cs with
      | some rest => some (.jbool true, rest)
      | none =>
        match dropLit falseLit cs with
        | some rest => some (.jbool false, rest)
        | none =>
          match cs with
          | [] => none
          | c :: rest =>
            if c == quoteChar then
              match parseStrBody rest with
              | some (s, rem) => some (.str s, rem)
              | none => none
            else if c == lbrackChar then
              match skipWs rest with
              | [] => none
              | d :: rem => if d == rbrackChar then some (.arr [], rem)
                            else parseElems fuel (d :: rem)
            else if c == lbraceChar then
              match skipWs rest with
              | [] => none
              | d :: rem => if d == rbraceChar then some (.obj [], rem)
                            else parseMembers fuel (d :: rem)
            else parseNum (c :: rest)

def parseElems : Nat → List Char → Option (Json × List Char)
  | 0, _ => none
  | fuel + 1, cs =>
    match parseVal fuel cs with
    | none => none
    | some (j, rest) =>
      match skipWs rest with
      | [] => none
      | c :: rem =>
        if c == ',' then
          match parseElems fuel rem with
          | some (.arr xs, rem') => some (.arr (j :: xs), rem')
          | _ => none
        else if c == rbrackChar then some (.arr [j], rem)
        else none

def parseMembers : Nat → List Char → Option (Json × List Char)
  | 0, _ => none
  | fuel + 1, cs =>
    match skipWs cs with
    | [] => none
    | c :: rest =>
      if c == quoteChar then
        match parseStrBody rest with
        | none => none
        | some (k, rem) =>
          match skipWs rem with
          | [] => none
          | d :: rem2 =>
            if d == ':' then
              match parseVal fuel rem2 with
              | none => none
              | some (v, rem3) =>
                match skipWs rem3 with
                | [] => none
                | e :: rem4 =>
                  if e == ',' then
                    match parseMembers fuel rem4 with
                    | some (.obj fs, rem5) => some (.obj ((k, v) :: fs), rem5)
                    | _ => none
                  else if e == rbraceChar then some (.obj [(k, v)], rem4)
                  else none
            else none
      else none

end

/-- `JSON.parse` model: parse a complete value, allowing trailing
whitespace only. -/
def jsonParse (s : String) : Option Json :=
  match parseVal (s.length * 2 + 2) s.data with
  | some (j, rest) => if (skipWs rest).isEmpty then some j else none
  | none => none

/-! ## Sorting -/

inductive SortDir where
  | asc
  | desc
deriving DecidableEq, Repr

def sortDirStr : SortDir → String
  | .asc => "asc"
  | .desc => "desc"

/-- The `orderBy` expression of `getAllUsers` (user service lines
227-231): absent or empty (falsy) `sort` sorts by `createdAt` in the
`order` direction; a value that does not start with an opening brace is
a single field name paired with `order`; a value that does start with
one goes through `JSON.parse`, whose failure throws (caught by the
service's catch-all). -/
def buildOrderBy (sort : Option String) (order : SortDir) : Except Unit Json :=
  match sort with
  | none => .ok (.obj [("createdAt", .str (sortDirStr order))])
  | some s =>
    if s == "" then .ok (.obj [("createdAt", .str (sortDirStr order))])
    else if strHasLeading lbraceStr s then
      match jsonParse s with
      | some j => .ok j
      | none => .error ()
    else .ok (.obj [(s, .str (sortDirStr order))])

/-- Modelled from the spec: the spec's own description of the `sort`
parameter ("if the value parses as JSON, it is used verbatim as a
multi-field sort specification; otherwise it is treated as a single
field name paired with `order`"; absent `sort` sorts by `createdAt`).
This is the refinement target that claim C7 compares against
`buildOrderBy`. -/
def specOrderBy (sort : Option String) (order : SortDir) : Json :=
  match sort with
  | none => .obj [("createdAt", .str (sortDirStr order))]
  | some s =>
    match jsonParse s with
    | some j => j
    | none => .obj [(s, .str (sortDirStr order))]

/-! ## The list service (`getAllUsers`, user service lines 192-284)

The database's sort is an external collaborator and is threaded in as
`sortFn` (the `orderBy` document and the matching records go in, a
rearrangement comes out).  `Math.ceil(total / limit)` over non-negative
integers with `limit ≥ 1` is `(total + limit - 1) / limit`. -/

structure ListParams where
  page : Option Nat
  limit : Option Nat
  sort : Option String
  order : Option SortDir
  fields : Option String
  query : Option String
  filters : Option (List (String × String))

structure Pagination where
  total : Nat
  page : Nat
  limit : Nat
  totalPages : Nat
  hasMore : Bool
deriving DecidableEq, Repr

inductive ListResult where
  | ok (data : List Row) (pagination : Pagination)
  | fail (message : String)

def getAllUsers (sortFn : Json → List User → List User) (db : DB) (p : ListParams) :
    ListResult :=
  let page := p.page.getD 1
  let limit := p.limit.getD 10
  let order := p.order.getD .desc
  let skip := (page - 1) * limit
  let w := buildWhere p.query p.filters
  match buildOrderBy p.sort order with
  | .error _ => .fail "Server error"
  | .ok ob =>
    match fieldSelections p.fields with
    | .error _ => .fail "Server error"
    | .ok sel =>
      match matchedUsers db w with
      | .error _ => .fail "Server error"
      | .ok m =>
        match mapRows (applySelect sel) (((sortFn ob m).drop skip).take limit) with
        | .error _ => .fail "Server error"
        | .ok rows =>
          .ok rows
            { total := m.length, page := page, limit := limit,
              totalPages := (m.length + limit - 1) / limit,
              hasMore := decide (skip + limit < m.length) }

/-! ## Get-by-id (`getUserById`, user service lines 286-342) -/

inductive ByIdResult where
  | ok (row : Row)
  | fail (message : String)

def getUserById (db : DB) (id : String) (fields : Option String) : ByIdResult :=
  match fieldSelections fields with
  | .error _ => .fail "Server error"
  | .ok sel =>
    match db.find? (fun u => u.id == id && !u.isDeleted) with
    | none => .fail "User not found"
    | some u =>
      match applySelect sel u with
      | .error _ => .fail "Server error"
      | .ok row => .ok row

/-! ## Creation (`register` in the auth service, `createUserAdmin` in the
user service)

`bcrypt` hashing, JWT signing, the generated object id and the creation
timestamp are external collaborators, passed in as `hash`, `sign`,
`newId` and `now`.  Both creation paths share the identical body: a
uniqueness lookup by email over ALL records (soft-deleted included),
then hash, persist (role defaulting to `passenger`, status to `active`),
sign a token over the new id, and return the created record under the
select id/firstName/lastName/middleName/email/metadata/createdAt. -/

structure CreateUserData where
  email : String
  firstName : String
  lastName : String
  middleName : Option String
  role : Option Role
  status : Option Status
  password : String
  metadata : Option Metadata

structure UpdateUserData where
  firstName : Option String
  lastName : Option String
  middleName : Option String
  email : Option String
  role : Option Role
  status : Option Status
  avatar : Option String
  password : Option String
  metadata : Option Metadata

inductive RegResult where
  | ok (user : Row) (token : String)
  | fail (message : String)

def newUserOf (hash : String → String) (newId : String) (now : Nat)
    (d : CreateUserData) : User :=
  { id := newId, firstName := d.firstName, lastName := d.lastName,
    middleName := d.middleName, email := d.email, password := hash d.password,
    role := d.role.getD .passenger, status := d.status.getD .active,
    avatar := none, metadata := d.metadata, isDeleted := false,
    createdAt := now, updatedAt := now }

/-- The `select` of the create call. -/
def createdRow (u : User) : Row :=
  [("id", .vStr u.id), ("firstName", .vStr u.firstName),
   ("lastName", .vStr u.lastName), ("middleName", optStr u.middleName),
   ("email", .vStr u.email),
   ("metadata", match u.metadata with
     | none => .vNull
     | some m => .vObj (metaRow m)),
   ("createdAt", .vNat u.createdAt)]

def register (hash sign : String → String) (newId : String) (now : Nat)
    (db : DB) (d : CreateUserData) : RegResult × DB :=
  match db.find? (fun u => u.email == d.email) with
  | some _ => (.fail "User already exists", db)
  | none =>
    let u := newUserOf hash newId now d
    (.ok (createdRow u) (sign u.id), db ++ [u])

/-- The body of `createUserAdmin` before its catch-all: the RBAC check
(which throws), then the very same code as `register`. -/
def createUserAdminInner (hash sign : String → String) (newId : String) (now : Nat)
    (db : DB) (d : CreateUserData) (userRole : Option Role) :
    Except Thrown (RegResult × DB) :=
  match requireAdminPermission userRole with
  | .error t => .error t
  | .ok _ => .ok (register hash sign newId now db d)

/-- `createUserAdmin` with its catch-all: ANY thrown error (including
the RBAC "Insufficient permissions") becomes the structured
`{success: false, message: "Server error"}` result. -/
def createUserAdmin (hash sign : String → String) (newId : String) (now : Nat)
    (db : DB) (d : CreateUserData) (userRole : Option Role) : RegResult × DB :=
  match createUserAdminInner hash sign newId now db d userRole with
  | .ok r => r
  | .error _ => (.fail "Server error", db)

/-! ## Update and soft delete (user service lines 395-500) -/

inductive ActionResult where
  | ok (row : Row)
  | fail (message : String)

/-- The partial-update semantics: provided fields overwrite, the
password is re-hashed when truthy, `updatedAt` is refreshed. -/
def applyUpdate (hash : String → String) (now : Nat) (u : User)
    (d : UpdateUserData) : User :=
  { u with
    firstName := d.firstName.getD u.firstName,
    lastName := d.lastName.getD u.lastName,
    middleName := match d.middleName with
      | some m => some m
      | none => u.middleName,
    email := d.email.getD u.email,
    role := d.role.getD u.role,
    status := d.status.getD u.status,
    avatar := match d.avatar with
      | some a => some a
      | none => u.avatar,
    password := match d.password with
      | none => u.password
      | some pw => if pw == "" then pw else hash pw,
    metadata := match d.metadata with
      | some m => some m
      | none => u.metadata,
    updatedAt := now }

/-- The `select` of the update call. -/
def updatedRow (u : User) : Row :=
  [("id", .vStr u.id), ("firstName", .vStr u.firstName),
   ("lastName", .vStr u.lastName), ("middleName", optStr u.middleName),
   ("email", .vStr u.email), ("role", .vStr (roleStr u.role)),
   ("status", .vStr (statusStr u.status)), ("avatar", optStr u.avatar),
   ("metadata", match u.metadata with
     | none => .vNull
     | some m => .vObj (metaRow m)),
   ("createdAt", .vNat u.createdAt), ("updatedAt", .vNat u.updatedAt)]

def updateUserInner (hash : String → String) (now : Nat) (db : DB) (id : String)
    (d : UpdateUserData) (userRole : Option Role) :
    Except Thrown (ActionResult × DB) :=
  match requireWritePermission userRole with
  | .error t => .error t
  | .ok _ =>
    match db.find? (fun u => u.id == id && !u.isDeleted) with
    | none => .ok (.fail "User not found", db)
    | some u =>
      .ok (.ok (updatedRow (applyUpdate hash now u d)),
           db.map (fun v => if v.id == id then applyUpdate hash now v d else v))

def updateUser (hash : String → String) (now : Nat) (db : DB) (id : String)
    (d : UpdateUserData) (userRole : Option Role) : ActionResult × DB :=
  match updateUserInner hash now db id d userRole with
  | .ok r => r
  | .error _ => (.fail "Server error", db)

inductive DelResult where
  | ok
  | fail (message : String)
deriving DecidableEq, Repr

def deleteUserInner (now : Nat) (db : DB) (id : String) (userRole : Option Role) :
    Except Thrown (DelResult × DB) :=
  match requireDeletePermission userRole with
  | .error t => .error t
  | .ok _ =>
    match db.find? (fun u => u.id == id && !u.isDeleted) with
    | none => .ok (.fail "User not found", db)
    | some _ =>
      .ok (.ok,
           db.map (fun v => if v.id == id then { v with isDeleted := true, updatedAt := now } else v))

def deleteUser (now : Nat) (db : DB) (id : String) (userRole : Option Role) :
    DelResult × DB :=
  match deleteUserInner now db id userRole with
  | .ok r => r
  | .error _ => (.fail "Server error", db)

/-! ## Login (auth service lines 561-613)

`bcrypt.compare` is the collaborator `verify` (plaintext first, stored
hash second).  The claimed role arrives as a raw string and is compared
against the stored role's string form. -/

inductive LoginResult where
  | ok (user : Row) (token : String)
  | fail (message : String)

def loginSummary (u : User) : Row :=
  [("id", .vStr u.id), ("firstName", .vStr u.firstName),
   ("lastName", .vStr u.lastName), ("middleName", optStr u.middleName),
   ("email", .vStr u.email), ("role", .vStr (roleStr u.role)),
   ("createdAt", .vNat u.createdAt)]

def login (verify : String → String → Bool) (sign : String → String)
    (db : DB) (email password role : String) : LoginResult :=
  match db.find? (fun u => u.email == email) with
  | none => .fail "Invalid credentials"
  | some u =>
    if roleStr u.role != role then .fail "Access denied: Invalid role for this login"
    else if !(verify password u.password) then .fail "Invalid credentials"
    else .ok (loginSummary u) (sign u.id)

/-! ## The route layer (src/routes/user.route.ts)

The dynamic-filter loop of the `getAllUsers` handler (lines 55-66), and
the status-code mapping of the mutation handlers.  A request query
parameter is either a single string or (for repeated keys) an array. -/

inductive QueryVal where
  | qStr (s : String)
  | qArr (l : List String)

/-- The `filter_` collection loop: keys starting with `filter_` whose
value is a truthy string are collected under the stripped field name
(assignment into the `filters` object, i.e. an upsert). -/
def buildFilters (params : List (String × QueryVal)) : List (String × String) :=
  params.foldl
    (fun fs kv =>
      if strHasLeading filterKeyStart kv.1 then
        match kv.2 with
        | .qStr s => if s == "" then fs else upsertVal fs (stripSeven kv.1) s
        | .qArr _ => fs
      else fs)
    []

/-- The POST /user/admin handler: a structured failure is a 400, a
success a 201; only a THROWN "Insufficient permissions" reaches the 403
branch, any other throw is a 500. -/
def handleCreateUserAdmin : Except Thrown RegResult → Nat × String
  | .error .insufficientPermissions => (403, "Insufficient permissions")
  | .error _ => (500, "Server error")
  | .ok (.ok _ _) => (201, "User created successfully")
  | .ok (.fail m) => (400, m)

/-- The PATCH /user/:id handler: structured failures map to 404. -/
def handleUpdateUser : Except Thrown ActionResult → Nat × String
  | .error .insufficientPermissions => (403, "Insufficient permissions")
  | .error _ => (500, "Server error")
  | .ok (.ok _) => (200, "User updated successfully")
  | .ok (.fail m) => (404, m)

/-- The PUT /user/:id handler: structured failures map to 404. -/
def handleDeleteUser : Except Thrown DelResult → Nat × String
  | .error .insufficientPermissions => (403, "Insufficient permissions")
  | .error _ => (500, "Server error")
  | .ok .ok => (200, "User deleted successfully")
  | .ok (.fail m) => (404, m)

/-! ## Concrete fixtures -/

/-- A live user whose stored (hashed) password is `"HASH"`. -/
def samplePwdUser : User :=
  { id := "p1", firstName := "Ada", lastName := "Lee", middleName := none,
    email := "ada@x.com", password := "HASH", role := .passenger, status := .active,
    avatar := none, metadata := none, isDeleted := false, createdAt := 1, updatedAt := 1 }

/-- A soft-deleted user. -/
def sampleDeletedUser : User :=
  { id := "d1", firstName := "Del", lastName := "Eted", middleName := none,
    email := "del@x.com", password := "HASH", role := .passenger, status := .active,
    avatar := none, metadata := none, isDeleted := true, createdAt := 2, updatedAt := 3 }

/-- An identity stand-in for the database's sort collaborator. -/
def keepOrder : Json → List User → List User := fun _ l => l

def mkListedUser (i : Nat) : User :=
  { id := "u" ++ toString i, firstName := "First", lastName := "Last",
    middleName := none, email := "e" ++ toString i ++ "@x.com", password := "h",
    role := .passenger, status := .active, avatar := none, metadata := none,
    isDeleted := false, createdAt := i, updatedAt := i }

/-- Twenty-five live users. -/
def listedUsers25 : DB := (List.range 25).map mkListedUser

def defaultParams : ListParams :=
  { page := none, limit := none, sort := none, order := none,
    fields := none, query := none, filters := none }

def pageParams (n : Nat) : ListParams :=
  { page := some n, limit := some 10, sort := none, order := none,
    fields := none, query := none, filters := none }

def pwdFieldsParams : ListParams :=
  { page := none, limit := none, sort := none, order := none,
    fields := some "password", query := none, filters := none }

def sortBadParams : ListParams :=
  { page := none, limit := none, sort := some lbraceStr, order := none,
    fields := none, query := none, filters := none }

/-- The selection the builder produces for `fields=firstName`. -/
def firstNameSel : Sel := [("id", .leaf), ("firstName", .leaf)]

/-- The filters the route loop accepts, as a filterMap (proof-internal
restatement of the loop body, used to characterise `buildFilters`). -/
def acceptedFilters (params : List (String × QueryVal)) : List (String × String) :=
  params.filterMap (fun kv =>
    if strHasLeading filterKeyStart kv.1 then
      match kv.2 with
      | .qStr s => if s == "" then none else some (stripSeven kv.1, s)
      | .qArr _ => none
    else none)

/-- The free-text-search component of the list where clause: vacuous
when `query` is absent or empty (falsy), otherwise the OR-of-contains. -/
def searchPasses (q : Option String) (u : User) : Bool :=
  match q with
  | none => true
  | some s => if s == "" then true else matchesSearch u s

/-- The rows page 2 of the 25-user listing returns (ids u10..u19). -/
def c9data2 : List Row :=
  (List.range 10).map (fun i => [("id", Value.vStr ("u" ++ toString (10 + i)))])

def c9pag2 : Pagination :=
  { total := 25, page := 2, limit := 10, totalPages := 3, hasMore := true }

/-! ## Helper lemmas -/

theorem lookupVal_cons {α : Type} (p : String × α) (t : List (String × α)) (k : String) :
    lookupVal (p :: t) k = if p.1 == k then some p.2 else lookupVal t k := by
  by_cases h : p.1 == k
  · simp [lookupVal, List.find?, h]
  · simp only [Bool.not_eq_true] at h
    simp [lookupVal, List.find?, h]

theorem lookupVal_append_left {α : Type} (l t : List (String × α)) (k : String)
    (h : lookupVal l k = none) : lookupVal (l ++ t) k = lookupVal t k := by
  induction l with
  | nil => simp
  | cons p r ih =>
    rw [List.cons_append, lookupVal_cons] at *
    by_cases hp : p.1 == k
    · simp [hp] at h
    · simp only [Bool.not_eq_true] at hp
      simp [hp] at h ⊢
      exact ih h

theorem lookupVal_some_mem {α : Type} {l : List (String × α)} {k : String} {v : α}
    (h : lookupVal l k = some v) : (k, v) ∈ l := by
  induction l with
  | nil => simp [lookupVal] at h
  | cons p t ih =>
    rw [lookupVal_cons] at h
    by_cases hp : p.1 == k
    · simp [hp] at h
      have : p = (k, v) := by
        rcases p with ⟨a, b⟩
        simp at hp h
        simp [hp, h]
      simp [this]
    · simp only [Bool.not_eq_true] at hp
      simp [hp] at h
      exact List.mem_cons_of_mem _ (ih h)

theorem lookupVal_upsert_self {α : Type} (l : List (String × α)) (k : String) (v : α) :
    lookupVal (upsertVal l k v) k = some v := by
  induction l with
  | nil => simp [upsertVal, lookupVal_cons]
  | cons p t ih =>
    by_cases hp : p.1 == k
    · simp [upsertVal, hp, lookupVal_cons]
    · simp only [Bool.not_eq_true] at hp
      simp only [upsertVal, hp, Bool.false_eq_true, if_false, lookupVal_cons]
      simpa [hp] using ih

theorem lookupVal_upsert_ne {α : Type} (l : List (String × α)) (k k' : String) (v : α)
    (h : k' ≠ k) : lookupVal (upsertVal l k v) k' = lookupVal l k' := by
  have hkk' : (k == k') = false := by
    simp only [beq_eq_false_iff_ne, ne_eq]
    exact fun hkk => h hkk.symm
  induction l with
  | nil => simp [upsertVal, lookupVal_cons, hkk', lookupVal]
  | cons p t ih =>
    by_cases hp : p.1 == k
    · have hpk : p.1 = k := by simpa using hp
      simp only [upsertVal, hp, if_true]
      rw [lookupVal_cons, lookupVal_cons, hpk]
      simp [hkk']
    · simp only [Bool.not_eq_true] at hp
      simp only [upsertVal, hp, Bool.false_eq_true, if_false, lookupVal_cons]
      by_cases hpk' : p.1 == k'
      · simp [hpk']
      · simp only [Bool.not_eq_true] at hpk'
        simp only [hpk', Bool.false_eq_true, if_false]
        exact ih

theorem upsertVal_fresh_append {α : Type} (l : List (String × α)) (k : String) (v : α)
    (h : ∀ p ∈ l, (p.1 == k) = false) : upsertVal l k v = l ++ [(k, v)] := by
  induction l with
  | nil => simp [upsertVal]
  | cons p t ih =>
    have hp := h p (List.mem_cons_self _ _)
    simp only [upsertVal, hp, Bool.false_eq_true, if_false, List.cons_append]
    rw [ih (fun q hq => h q (List.mem_cons_of_mem _ hq))]

theorem mapRows_ok_length {α β : Type} (f : α → Except Unit β) :
    ∀ (l : List α) (r : List β), mapRows f l = .ok r → r.length = l.length := by
  intro l
  induction l with
  | nil =>
    intro r h
    simp only [mapRows] at h
    cases h
    rfl
  | cons a as ih =>
    intro r h
    simp only [mapRows] at h
    cases hf : f a with
    | error e => rw [hf] at h; cases h
    | ok b =>
      rw [hf] at h
      cases hm : mapRows f as with
      | error e => rw [hm] at h; cases h
      | ok bs =>
        rw [hm] at h
        cases h
        simp [ih bs hm]

theorem mapRows_ok_mem {α β : Type} (f : α → Except Unit β) :
    ∀ (l : List α) (r : List β), mapRows f l = .ok r →
      ∀ b ∈ r, ∃ a ∈ l, f a = .ok b := by
  intro l
  induction l with
  | nil =>
    intro r h b hb
    simp only [mapRows] at h
    cases h
    simp at hb
  | cons a as ih =>
    intro r h b hb
    simp only [mapRows] at h
    cases hf : f a with
    | error e => rw [hf] at h; cases h
    | ok b0 =>
      rw [hf] at h
      cases hm : mapRows f as with
      | error e => rw [hm] at h; cases h
      | ok bs =>
        rw [hm] at h
        cases h
        rcases List.mem_cons.mp hb with hb0 | hbs
        · exact ⟨a, List.mem_cons_self _ _, hb0 ▸ hf⟩
        · rcases ih bs hm b hbs with ⟨a', ha', hfa'⟩
          exact ⟨a', List.mem_cons_of_mem _ ha', hfa'⟩

theorem evalWhere_ok_true_iff (u : User) :
    ∀ w : Where, evalWhere u w = .ok true ↔ ∀ e ∈ w, evalWhereEntry u e = .ok true := by
  intro w
  induction w with
  | nil => simp [evalWhere]
  | cons e rest ih =>
    constructor
    · intro h e' he'
      simp only [evalWhere] at h
      cases hE : evalWhereEntry u e with
      | error x => rw [hE] at h; simp at h
      | ok b =>
        rw [hE] at h
        cases hR : evalWhere u rest with
        | error x => rw [hR] at h; simp at h
        | ok c =>
          rw [hR] at h
          simp only [Except.ok.injEq, Bool.and_eq_true] at h
          rcases List.mem_cons.mp he' with rfl | hmem
          · rw [hE, h.1]
          · have : evalWhere u rest = .ok true := by rw [hR, h.2]
            exact (ih.mp this) e' hmem
    · intro h
      have hE : evalWhereEntry u e = .ok true := h e (List.mem_cons_self _ _)
      have hR : evalWhere u rest = .ok true :=
        ih.mpr (fun e' he' => h e' (List.mem_cons_of_mem _ he'))
      simp [evalWhere, hE, hR]

theorem matchedUsers_ok_mem :
    ∀ (db : DB) (w : Where) (m : List User), matchedUsers db w = .ok m →
      ∀ v ∈ m, v ∈ db ∧ evalWhere v w = .ok true := by
  intro db
  induction db with
  | nil =>
    intro w m h v hv
    simp only [matchedUsers] at h
    cases h
    simp at hv
  | cons u rest ih =>
    intro w m h v hv
    simp only [matchedUsers] at h
    cases hE : evalWhere u w with
    | error e => rw [hE] at h; cases h
    | ok b =>
      rw [hE] at h
      cases hM : matchedUsers rest w with
      | error e => rw [hM] at h; cases h
      | ok tail =>
        rw [hM] at h
        simp only [Except.ok.injEq] at h
        subst h
        cases b with
        | true =>
          simp only [if_true] at hv
          rcases List.mem_cons.mp hv with rfl | hmem
          · exact ⟨List.mem_cons_self _ _, hE⟩
          · rcases ih w tail hM v hmem with ⟨h1, h2⟩
            exact ⟨List.mem_cons_of_mem _ h1, h2⟩
        | false =>
          simp only [Bool.false_eq_true, if_false] at hv
          rcases ih w tail hM v hv with ⟨h1, h2⟩
          exact ⟨List.mem_cons_of_mem _ h1, h2⟩

theorem foldl_upsert_keeps (fs : List (String × String)) :
    ∀ (acc : Where) (k : String),
      (lookupVal acc k = some (.wBool false) ∨ ∃ s, lookupVal acc k = some (.wStr s)) →
      (lookupVal (fs.foldl (fun a p => upsertVal a p.1 (.wStr p.2)) acc) k = some (.wBool false) ∨
        ∃ s, lookupVal (fs.foldl (fun a p => upsertVal a p.1 (.wStr p.2)) acc) k = some (.wStr s)) := by
  induction fs with
  | nil => intro acc k h; simpa using h
  | cons p t ih =>
    intro acc k h
    rw [List.foldl_cons]
    apply ih
    by_cases hpk : k = p.1
    · right
      exact ⟨p.2, by rw [hpk, lookupVal_upsert_self]⟩
    · rw [lookupVal_upsert_ne _ _ _ _ hpk]
      exact h

/-- Whatever the query and the dynamic filters, the where clause of
`getAllUsers` binds the key `isDeleted` either to the fixed `false`
predicate or (when a `filter_isDeleted` parameter overrode it) to a
string filter value. -/
theorem buildWhere_isDeleted (q : Option String) (fsOpt : Option (List (String × String))) :
    lookupVal (buildWhere q fsOpt) "isDeleted" = some (.wBool false) ∨
      ∃ s, lookupVal (buildWhere q fsOpt) "isDeleted" = some (.wStr s) := by
  have hbase : ∀ (base : Where), base = [("isDeleted", .wBool false)] ∨
      base = [("isDeleted", .wBool false), ("OR", .wSearch ((q.getD "")))] →
      lookupVal base "isDeleted" = some (.wBool false) := by
    intro base hb
    rcases hb with rfl | rfl
    · rfl
    · rfl
  unfold buildWhere
  cases q with
  | none =>
    cases fsOpt with
    | none => left; rfl
    | some fs => exact foldl_upsert_keeps fs _ _ (Or.inl rfl)
  | some qs =>
    by_cases hq : qs == ""
    · simp only [hq, if_true]
      cases fsOpt with
      | none => left; rfl
      | some fs => exact foldl_upsert_keeps fs _ _ (Or.inl rfl)
    · simp only [Bool.not_eq_true] at hq
      simp only [hq, Bool.false_eq_true, if_false]
      cases fsOpt with
      | none => left; rfl
      | some fs => exact foldl_upsert_keeps fs _ _ (Or.inl rfl)

/-- A record that satisfies the list where clause is live: the
`isDeleted: false` predicate either survives (and forces it) or was
overridden by a string filter, which is a query-validation error and
cannot evaluate to `true`. -/
theorem evalWhere_live (u : User) (q : Option String) (fsOpt : Option (List (String × String)))
    (h : evalWhere u (buildWhere q fsOpt) = .ok true) : u.isDeleted = false := by
  rcases buildWhere_isDeleted q fsOpt with hk | ⟨s, hk⟩
  · have hmem := lookupVal_some_mem hk
    have hentry := (evalWhere_ok_true_iff u _).mp h _ hmem
    have : evalWhereEntry u ("isDeleted", .wBool false) = .ok (u.isDeleted == false) := rfl
    rw [this] at hentry
    simpa using hentry
  · have hmem := lookupVal_some_mem hk
    have hentry := (evalWhere_ok_true_iff u _).mp h _ hmem
    have : evalWhereEntry u ("isDeleted", .wStr s) = .error () := rfl
    rw [this] at hentry
    cases hentry

/-! ### Selection-builder invariants -/

theorem insertChain_leaf_head_error (acc : Sel) (f c : String) (rest : List String)
    (hl : lookupVal acc f = some .leaf) : insertChain acc (f :: c :: rest) = .error () := by
  simp [insertChain, hl]

theorem insertChain_leaf_preserve (f : String) (parts : List String) (acc acc' : Sel)
    (hl : lookupVal acc f = some .leaf) (h : insertChain acc parts = .ok acc') :
    lookupVal acc' f = some .leaf := by
  match parts with
  | [] =>
    simp only [insertChain, Except.ok.injEq] at h
    rw [← h]
    exact hl
  | [k] =>
    simp only [insertChain, Except.ok.injEq] at h
    subst h
    by_cases hkf : f = k
    · rw [hkf, lookupVal_upsert_self]
    · rw [lookupVal_upsert_ne _ _ _ _ hkf]
      exact hl
  | k :: c :: rest =>
    by_cases hkf : k = f
    · rw [hkf] at h
      rw [insertChain_leaf_head_error _ _ _ _ hl] at h
      cases h
    · simp only [insertChain] at h
      cases hlk : lookupVal acc k with
      | none =>
        rw [hlk] at h
        dsimp only at h
        cases hsub : insertChain [] (c :: rest) with
        | error e => rw [hsub] at h; cases h
        | ok sub =>
          rw [hsub] at h
          simp only [Except.ok.injEq] at h
          subst h
          rw [lookupVal_upsert_ne _ _ _ _ (fun hfk => hkf hfk.symm)]
          exact hl
      | some sv =>
        rw [hlk] at h
        cases sv with
        | leaf => simp at h
        | node sub =>
          dsimp only at h
          cases hsub : insertChain sub (c :: rest) with
          | error e => rw [hsub] at h; cases h
          | ok sub' =>
            rw [hsub] at h
            simp only [Except.ok.injEq] at h
            subst h
            rw [lookupVal_upsert_ne _ _ _ _ (fun hfk => hkf hfk.symm)]
            exact hl

theorem buildSelGo_append (xs : List String) :
    ∀ (ys : List String) (acc : Sel),
      buildSelGo (xs ++ ys) acc =
        match buildSelGo xs acc with
        | .error e => .error e
        | .ok acc' => buildSelGo ys acc' := by
  induction xs with
  | nil => intro ys acc; simp [buildSelGo]
  | cons t ts ih =>
    intro ys acc
    simp only [List.cons_append, buildSelGo]
    cases insertChain acc (strSplitOn '.' (strTrim t)) with
    | error e => rfl
    | ok acc' => exact ih ys acc'

theorem buildSelGo_leaf_invariant (f : String) :
    ∀ (ts : List String) (acc acc' : Sel), lookupVal acc f = some .leaf →
      buildSelGo ts acc = .ok acc' → lookupVal acc' f = some .leaf := by
  intro ts
  induction ts with
  | nil =>
    intro acc acc' hl h
    simp only [buildSelGo, Except.ok.injEq] at h
    rw [← h]
    exact hl
  | cons t ts ih =>
    intro acc acc' hl h
    simp only [buildSelGo] at h
    cases hI : insertChain acc (strSplitOn '.' (strTrim t)) with
    | error e => rw [hI] at h; cases h
    | ok acc1 =>
      rw [hI] at h
      exact ih acc1 acc' (insertChain_leaf_preserve f _ acc acc1 hl hI) h

/-! ### Ceiling division facts (for `Math.ceil(total / limit)`) -/

theorem ceilNat_mul_ge (t l : Nat) (hl : 1 ≤ l) : t ≤ ((t + l - 1) / l) * l := by
  have hd := Nat.div_add_mod (t + l - 1) l
  have hm : (t + l - 1) % l < l := Nat.mod_lt _ (by omega)
  rw [Nat.mul_comm]
  generalize hA : l * ((t + l - 1) / l) = a at hd
  omega

theorem ceilNat_pred_mul_lt (t l : Nat) (hl : 1 ≤ l) (ht : 0 < t) :
    (((t + l - 1) / l) - 1) * l < t := by
  have hd := Nat.div_add_mod (t + l - 1) l
  have hm : (t + l - 1) % l < l := Nat.mod_lt _ (by omega)
  rw [Nat.sub_mul, Nat.one_mul, Nat.mul_comm]
  generalize hA : l * ((t + l - 1) / l) = a at hd
  omega

/-! ## Claims -/

/-- C1.  The claim says the records returned by `getAllUsers` and
`getUserById` never contain the `password` field, for every value of
`fields` including the literal `"password"`.  The code does not enforce
this: the projection builder turns `fields=password` into the selection
`{id: true, password: true}` and the read paths return the stored
password hash.  This theorem evaluates both read paths at the failing
input `fields = "password"` on a live user whose stored hash is
`"HASH"`: the returned records carry a `password` field. -/
theorem c1_password_field_is_returned :
    getUserById [samplePwdUser] "p1" (some "password") =
      .ok [("id", .vStr "p1"), ("password", .vStr "HASH")] ∧
    getAllUsers keepOrder [samplePwdUser] pwdFieldsParams =
      .ok [[("id", .vStr "p1"), ("password", .vStr "HASH")]]
        { total := 1, page := 1, limit := 10, totalPages := 1, hasMore := false } :=
  ⟨rfl, rfl⟩

/-- C2.  The claim says the "Insufficient permissions" error thrown by
the RBAC check inside `createUserAdmin` (and `updateUser`,
`deleteUser`) propagates out of the service to the route handler, which
maps it to HTTP 403.  In the code, each service wraps its whole body —
the permission check included — in a try/catch whose catch-all turns
ANY thrown error into the structured result
`{success: false, message: "Server error"}`; the handler then maps that
structured failure to 400 (create) or 404 (update/delete), and its 403
catch branch is unreachable from the service.  This theorem evaluates
the code on permission-lacking roles: the inner body does throw
`insufficientPermissions`, but the exported service function returns
the structured "Server error" failure with the database unchanged, and
the handler's response is 400/404, never 403. -/
theorem c2_permission_error_swallowed (hash sign : String → String) (newId : String)
    (now : Nat) (db : DB) (d : CreateUserData) (id : String) (ud : UpdateUserData) :
    createUserAdminInner hash sign newId now db d (some .driver) =
      .error .insufficientPermissions ∧
    createUserAdmin hash sign newId now db d (some .driver) = (.fail "Server error", db) ∧
    handleCreateUserAdmin (.ok (createUserAdmin hash sign newId now db d (some .driver)).1) =
      (400, "Server error") ∧
    createUserAdmin hash sign newId now db d (some .passenger) = (.fail "Server error", db) ∧
    updateUserInner hash now db id ud (some .driver) = .error .insufficientPermissions ∧
    updateUser hash now db id ud (some .driver) = (.fail "Server error", db) ∧
    handleUpdateUser (.ok (updateUser hash now db id ud (some .driver)).1) =
      (404, "Server error") ∧
    deleteUserInner now db id (some .passenger) = .error .insufficientPermissions ∧
    deleteUser now db id (some .passenger) = (.fail "Server error", db) ∧
    handleDeleteUser (.ok (deleteUser now db id (some .passenger)).1) =
      (404, "Server error") :=
  ⟨rfl, rfl, rfl, rfl, rfl, rfl, rfl, rfl, rfl, rfl⟩

/-- C3.  A soft-deleted record is invisible to the read paths: whatever
the list parameters (page, limit, sort, order, query, dynamic filters),
every row `getAllUsers` returns is the projection of a matched record
that is live (`isDeleted = false`) and the pagination total counts
exactly those matched live records — so a soft-deleted record is
neither listed nor counted; and `getUserById` on the id of a
soft-deleted record (with ids unique, as in the database) returns the
"User not found" outcome whenever the field selection itself builds.
The database's sort is quantified over all functions that only
rearrange their input. -/
theorem c3_soft_deleted_is_invisible :
    (∀ (sortFn : Json → List User → List User),
      (∀ j l x, x ∈ sortFn j l → x ∈ l) →
      ∀ (db : DB) (p : ListParams) (data : List Row) (pg : Pagination),
        getAllUsers sortFn db p = .ok data pg →
        ∃ m : List User,
          matchedUsers db (buildWhere p.query p.filters) = .ok m ∧
          (∀ v ∈ m, v ∈ db ∧ v.isDeleted = false) ∧
          pg.total = m.length ∧
          ∃ sel : Sel, fieldSelections p.fields = .ok sel ∧
            ∀ row ∈ data, ∃ v ∈ m, applySelect sel v = .ok row) ∧
    (∀ (db : DB) (u : User) (fields : Option String) (sel : Sel),
      u ∈ db → u.isDeleted = true →
      (∀ v ∈ db, v.id = u.id → v.isDeleted = true) →
      fieldSelections fields = .ok sel →
      getUserById db u.id fields = .fail "User not found") := by
  constructor
  · intro sortFn hsub db p data pg h
    simp only [getAllUsers] at h
    cases hOB : buildOrderBy p.sort (p.order.getD .desc) with
    | error e => rw [hOB] at h; simp at h
    | ok ob =>
      rw [hOB] at h
      dsimp only at h
      cases hFS : fieldSelections p.fields with
      | error e => rw [hFS] at h; simp at h
      | ok sel =>
        rw [hFS] at h
        dsimp only at h
        cases hM : matchedUsers db (buildWhere p.query p.filters) with
        | error e => rw [hM] at h; simp at h
        | ok m =>
          rw [hM] at h
          dsimp only at h
          cases hRows : mapRows (applySelect sel)
              (((sortFn ob m).drop ((p.page.getD 1 - 1) * p.limit.getD 10)).take
                (p.limit.getD 10)) with
          | error e => rw [hRows] at h; simp at h
          | ok rows =>
            rw [hRows] at h
            simp only [ListResult.ok.injEq] at h
            obtain ⟨hdata, hpg⟩ := h
            refine ⟨m, rfl, ?_, ?_, sel, rfl, ?_⟩
            · intro v hv
              obtain ⟨hvdb, hvw⟩ := matchedUsers_ok_mem db _ m hM v hv
              exact ⟨hvdb, evalWhere_live v _ _ hvw⟩
            · rw [← hpg]
            · intro row hrow
              rw [← hdata] at hrow
              obtain ⟨a, ha, hfa⟩ := mapRows_ok_mem (applySelect sel) _ rows hRows row hrow
              have ha1 : a ∈ (sortFn ob m).drop ((p.page.getD 1 - 1) * p.limit.getD 10) :=
                List.mem_of_mem_take ha
              have ha2 : a ∈ sortFn ob m := List.mem_of_mem_drop ha1
              exact ⟨a, hsub ob m a ha2, hfa⟩
  · intro db u fields sel hu hdel hunique hsel
    simp only [getUserById, hsel]
    have hfind : db.find? (fun v => v.id == u.id && !v.isDeleted) = none := by
      rw [List.find?_eq_none]
      intro v hv
      by_cases hid : v.id = u.id
      · have := hunique v hv hid
        simp [this, hid]
      · simp [hid]
    rw [hfind]

/-- Witness for C3: a database holding only a soft-deleted user; the
default list call succeeds with no rows and total 0, and get-by-id on
the deleted id is "User not found". -/
theorem c3_witness :
    (∃ m : List User,
        matchedUsers [sampleDeletedUser]
            (buildWhere defaultParams.query defaultParams.filters) = .ok m ∧
        (∀ v ∈ m, v ∈ [sampleDeletedUser] ∧ v.isDeleted = false) ∧
        (Pagination.mk 0 1 10 0 false).total = m.length ∧
        ∃ sel : Sel, fieldSelections defaultParams.fields = .ok sel ∧
          ∀ row ∈ ([] : List Row), ∃ v ∈ m, applySelect sel v = .ok row) ∧
    getUserById [sampleDeletedUser] "d1" none = .fail "User not found" := by
  constructor
  · exact c3_soft_deleted_is_invisible.1 keepOrder (fun j l x hx => hx)
      [sampleDeletedUser] defaultParams [] (Pagination.mk 0 1 10 0 false) rfl
  · exact c3_soft_deleted_is_invisible.2 [sampleDeletedUser] sampleDeletedUser none
      [("id", .leaf)] (List.mem_cons_self _ _) rfl
      (by
        intro v hv hid
        rcases List.mem_singleton.mp hv with rfl
        rfl)
      rfl

/-- C4.  If any record with the given email exists — live or
soft-deleted, since the `findUnique` lookup carries no `isDeleted`
condition — then `register` and (for an admin actor, who passes the
RBAC gate) `createUserAdmin` both return the "User already exists"
conflict result, leave the database unchanged (no record created) and
carry no token. -/
theorem c4_email_uniqueness_includes_deleted
    (hash sign : String → String) (newId : String) (now : Nat) (db : DB)
    (d : CreateUserData) (h : ∃ u ∈ db, u.email = d.email) :
    register hash sign newId now db d = (.fail "User already exists", db) ∧
    createUserAdmin hash sign newId now db d (some .admin) =
      (.fail "User already exists", db) := by
  have hfind : (db.find? (fun u => u.email == d.email)).isSome := by
    rw [List.find?_isSome]
    rcases h with ⟨u, hu, he⟩
    exact ⟨u, hu, by simp [he]⟩
  have hreg : register hash sign newId now db d = (.fail "User already exists", db) := by
    cases hf : db.find? (fun u => u.email == d.email) with
    | none => rw [hf] at hfind; simp at hfind
    | some u => simp [register, hf]
  refine ⟨hreg, ?_⟩
  have hinner : createUserAdminInner hash sign newId now db d (some .admin) =
      .ok (register hash sign newId now db d) := rfl
  simp [createUserAdmin, hinner, hreg]

/-- Witness for C4: the database holds only a soft-deleted user with
email `del@x.com`; creating that email again fails with the conflict
result on both paths and the database is unchanged. -/
theorem c4_witness :
    register (fun s => s) (fun s => s) "n1" 9 [sampleDeletedUser]
        (CreateUserData.mk "del@x.com" "New" "User" none none none "pw" none) =
      (.fail "User already exists", [sampleDeletedUser]) ∧
    createUserAdmin (fun s => s) (fun s => s) "n1" 9 [sampleDeletedUser]
        (CreateUserData.mk "del@x.com" "New" "User" none none none "pw" none) (some .admin) =
      (.fail "User already exists", [sampleDeletedUser]) :=
  c4_email_uniqueness_includes_deleted (fun s => s) (fun s => s) "n1" 9 [sampleDeletedUser]
    (CreateUserData.mk "del@x.com" "New" "User" none none none "pw" none)
    ⟨sampleDeletedUser, List.mem_cons_self _ _, rfl⟩

/-- C5.  `login` compares the stored role to the claimed role before
the password is checked: when the email lookup finds a user whose role
differs from the claimed one, the distinct role-mismatch message is
returned for EVERY password verifier (so even when the password is also
wrong); when the role matches but the verifier rejects the password,
and equally when no user has the email, the same generic
"Invalid credentials" message is returned. -/
theorem c5_login_role_checked_before_password
    (verify : String → String → Bool) (sign : String → String) (db : DB)
    (email password role : String) :
    (db.find? (fun u => u.email == email) = none →
      login verify sign db email password role = .fail "Invalid credentials") ∧
    (∀ u, db.find? (fun u => u.email == email) = some u → roleStr u.role ≠ role →
      login verify sign db email password role =
        .fail "Access denied: Invalid role for this login") ∧
    (∀ u, db.find? (fun u => u.email == email) = some u → roleStr u.role = role →
      verify password u.password = false →
      login verify sign db email password role = .fail "Invalid credentials") := by
  refine ⟨?_, ?_, ?_⟩
  · intro h
    simp [login, h]
  · intro u hu hr
    have hb : (roleStr u.role != role) = true := by
      simp [bne_iff_ne, hr]
    simp [login, hu, hb]
  · intro u hu hr hv
    have hb : (roleStr u.role != role) = false := by
      simp [bne, hr]
    simp [login, hu, hb, hv]

/-- Witness for C5: a stored passenger; a wrong-email login and a
right-role-wrong-password login both say "Invalid credentials", while a
wrong-role login (here with a verifier that rejects everything, i.e.
the password is also wrong) says the distinct role-mismatch message. -/
theorem c5_witness :
    login (fun _ _ => false) (fun s => s) [samplePwdUser] "nobody@x.com" "pw" "passenger" =
      .fail "Invalid credentials" ∧
    login (fun _ _ => false) (fun s => s) [samplePwdUser] "ada@x.com" "pw" "admin" =
      .fail "Access denied: Invalid role for this login" ∧
    login (fun _ _ => false) (fun s => s) [samplePwdUser] "ada@x.com" "pw" "passenger" =
      .fail "Invalid credentials" := by
  refine ⟨?_, ?_, ?_⟩
  · exact (c5_login_role_checked_before_password (fun _ _ => false) (fun s => s)
      [samplePwdUser] "nobody@x.com" "pw" "passenger").1 rfl
  · exact (c5_login_role_checked_before_password (fun _ _ => false) (fun s => s)
      [samplePwdUser] "ada@x.com" "pw" "admin").2.1 samplePwdUser rfl (by decide)
  · exact (c5_login_role_checked_before_password (fun _ _ => false) (fun s => s)
      [samplePwdUser] "ada@x.com" "pw" "passenger").2.2 samplePwdUser rfl rfl rfl

/-- C6 counterexample.  The claim says that for a non-empty `fields`
input naming other fields, `id` is NOT auto-injected into the selection
(default-only behavior).  But the reduce is seeded with `{id: true}`:
for `fields = "firstName"` the built selection is
`{id: true, firstName: true}`, so `id` IS in the selection although the
caller never asked for it. -/
theorem c6_counterexample :
    fieldSelections (some "firstName") = .ok firstNameSel ∧
    ("id", SelVal.leaf) ∈ firstNameSel := by
  exact ⟨rfl, List.mem_cons_self _ _⟩

/-- C6 as amended.  Absent or empty `fields` selects exactly `id`; and
for EVERY `fields` string whose selection builds successfully, `id` is
in the built selection as a leaf (the reduce seeds the accumulator with
`{id: true}`, and a successful build can only keep that binding): `id`
is always auto-injected, not default-only. -/
theorem c6_id_always_injected :
    fieldSelections none = .ok [("id", SelVal.leaf)] ∧
    fieldSelections (some "") = .ok [("id", SelVal.leaf)] ∧
    (∀ (s : String) (sel : Sel), fieldSelections (some s) = .ok sel →
      ("id", SelVal.leaf) ∈ sel) := by
  refine ⟨rfl, rfl, ?_⟩
  intro s sel h
  by_cases hs : s == ""
  · simp only [fieldSelections, hs, if_true, Except.ok.injEq] at h
    rw [← h]
    exact List.mem_cons_self _ _
  · simp only [Bool.not_eq_true] at hs
    simp only [fieldSelections, hs, Bool.false_eq_true, if_false, buildSel] at h
    have hl : lookupVal sel "id" = some .leaf :=
      buildSelGo_leaf_invariant "id" (tokensOf s) [("id", .leaf)] sel rfl h
    exact lookupVal_some_mem hl

/-- Witness for C6: applying the theorem at `fields = "email"`. -/
theorem c6_witness : ("id", SelVal.leaf) ∈ ([("id", SelVal.leaf), ("email", SelVal.leaf)] : Sel) :=
  c6_id_always_injected.2.2 "email" [("id", SelVal.leaf), ("email", SelVal.leaf)] rfl

/-- C7 counterexample.  The claim says that a `sort` value that parses
as JSON is used verbatim as the multi-field sort specification.  The
code instead branches on whether the string STARTS WITH an opening
brace: the value `"1"` parses as JSON (the number 1) yet is used as a
single field name paired with `order`, not verbatim. -/
theorem c7_counterexample :
    buildOrderBy (some "1") .desc = .ok (.obj [("1", .str "desc")]) ∧
    specOrderBy (some "1") .desc = .num 1 ∧
    Json.obj [("1", Json.str "desc")] ≠ Json.num 1 :=
  ⟨rfl, rfl, fun h => Json.noConfusion h⟩

/-- C7 as amended.  `getAllUsers` branches on whether `sort` starts
with an opening brace, not on JSON parsability: an absent or empty
(falsy) `sort` sorts by `createdAt` in the `order` direction (default
`desc`); a non-empty value not starting with an opening brace is a
single field name paired with `order`; a value starting with an opening
brace goes through `JSON.parse` and is used verbatim on success, while
a parse failure throws, making `getAllUsers` return the generic
"Server error" failure. -/
theorem c7_sort_branches_on_leading_brace (order : SortDir) (s : String) :
    buildOrderBy none order = .ok (.obj [("createdAt", .str (sortDirStr order))]) ∧
    buildOrderBy (some "") order = .ok (.obj [("createdAt", .str (sortDirStr order))]) ∧
    (s ≠ "" → strHasLeading lbraceStr s = false →
      buildOrderBy (some s) order = .ok (.obj [(s, .str (sortDirStr order))])) ∧
    (strHasLeading lbraceStr s = true → jsonParse s = none →
      buildOrderBy (some s) order = .error () ∧
      (∀ (sortFn : Json → List User → List User) (db : DB) (p : ListParams),
        p.sort = some s → getAllUsers sortFn db p = .fail "Server error")) ∧
    (∀ j : Json, strHasLeading lbraceStr s = true → jsonParse s = some j →
      buildOrderBy (some s) order = .ok j) := by
  have hempty : strHasLeading lbraceStr "" = false := rfl
  refine ⟨rfl, rfl, ?_, ?_, ?_⟩
  · intro h1 h2
    have hs : (s == "") = false := by simp [h1]
    simp [buildOrderBy, hs, h2]
  · intro h1 h2
    have hne : s ≠ "" := by
      intro he
      rw [he, hempty] at h1
      cases h1
    have hs : (s == "") = false := by simp [hne]
    have herr : ∀ o : SortDir, buildOrderBy (some s) o = .error () := by
      intro o
      simp [buildOrderBy, hs, h1, h2]
    refine ⟨herr order, ?_⟩
    intro sortFn db p hp
    simp only [getAllUsers, hp, herr]
  · intro j h1 h2
    have hne : s ≠ "" := by
      intro he
      rw [he, hempty] at h1
      cases h1
    have hs : (s == "") = false := by simp [hne]
    simp [buildOrderBy, hs, h1, h2]

/-- Witness for C7: a lone opening brace starts with a brace but fails
to parse, so the whole list call fails with "Server error"; the value
`"x"` does not start with a brace and becomes the single-field sort. -/
theorem c7_witness :
    buildOrderBy (some lbraceStr) .desc = .error () ∧
    getAllUsers keepOrder [] sortBadParams = .fail "Server error" ∧
    buildOrderBy (some "x") .asc = .ok (.obj [("x", .str "asc")]) := by
  refine ⟨?_, ?_, ?_⟩
  · exact ((c7_sort_branches_on_leading_brace .desc lbraceStr).2.2.2.1 rfl rfl).1
  · exact ((c7_sort_branches_on_leading_brace .desc lbraceStr).2.2.2.1 rfl rfl).2
      keepOrder [] sortBadParams rfl
  · exact (c7_sort_branches_on_leading_brace .asc "x").2.2.1 (by decide) rfl

theorem headMatches_recover : ∀ (xs ys : List Char), headMatches xs ys = true →
    xs ++ ys.drop xs.length = ys := by
  intro xs
  induction xs with
  | nil => intro ys h; simp
  | cons a as ih =>
    intro ys h
    cases ys with
    | nil => simp [headMatches] at h
    | cons b bs =>
      simp only [headMatches, Bool.and_eq_true, beq_iff_eq] at h
      simp only [List.length_cons, List.cons_append, List.drop_succ_cons]
      rw [h.1, ih bs h.2]

theorem headMatches_append (xs zs : List Char) : headMatches xs (xs ++ zs) = true := by
  induction xs with
  | nil => rfl
  | cons a as ih => simp [headMatches, ih]

theorem strHasLeading_recover (k : String) (h : strHasLeading filterKeyStart k = true) :
    filterKeyStart ++ stripSeven k = k := by
  obtain ⟨kd⟩ := k
  have hdata : filterKeyStart.data ++ kd.drop 7 = kd := by
    have hlen : filterKeyStart.data.length = 7 := rfl
    rw [← hlen]
    exact headMatches_recover filterKeyStart.data kd h
  show String.mk (filterKeyStart.data ++ kd.drop 7) = String.mk kd
  rw [hdata]

theorem strHasLeading_append (f : String) :
    strHasLeading filterKeyStart (filterKeyStart ++ f) = true := by
  show headMatches filterKeyStart.data (filterKeyStart.data ++ f.data) = true
  exact headMatches_append _ _

theorem stripSeven_append (f : String) : stripSeven (filterKeyStart ++ f) = f := by
  obtain ⟨fd⟩ := f
  show String.mk ((filterKeyStart.data ++ fd).drop 7) = String.mk fd
  have hlen : filterKeyStart.data.length = 7 := rfl
  rw [← hlen, List.drop_left]

theorem buildFilters_go (params : List (String × QueryVal)) :
    ∀ (acc : List (String × String)),
      (∀ p ∈ acc, (filterKeyStart ++ p.1) ∉ params.map Prod.fst) →
      (params.map Prod.fst).Nodup →
      params.foldl
        (fun fs kv =>
          if strHasLeading filterKeyStart kv.1 then
            match kv.2 with
            | .qStr s => if s == "" then fs else upsertVal fs (stripSeven kv.1) s
            | .qArr _ => fs
          else fs)
        acc = acc ++ acceptedFilters params := by
  induction params with
  | nil =>
    intro acc _ _
    simp [acceptedFilters]
  | cons kv rest ih =>
    intro acc hfresh hnd
    obtain ⟨k, v⟩ := kv
    simp only [List.map_cons, List.nodup_cons] at hnd
    rw [List.foldl_cons]
    by_cases hlead : strHasLeading filterKeyStart k
    · cases v with
      | qArr l =>
        simp only [hlead, if_true]
        rw [ih acc (fun p hp => fun hc => hfresh p hp (List.mem_cons_of_mem _ hc)) hnd.2]
        simp [acceptedFilters, List.filterMap_cons, hlead]
      | qStr s =>
        by_cases hs : s == ""
        · have hseq : s = "" := by simpa using hs
          simp only [hlead, if_true, hs]
          rw [ih acc (fun p hp => fun hc => hfresh p hp (List.mem_cons_of_mem _ hc)) hnd.2]
          simp [acceptedFilters, List.filterMap_cons, hlead, hseq]
        · simp only [Bool.not_eq_true] at hs
          simp only [hlead, if_true, hs, Bool.false_eq_true, if_false]
          have hup : upsertVal acc (stripSeven k) s = acc ++ [(stripSeven k, s)] := by
            apply upsertVal_fresh_append
            intro p hp
            by_cases hpk : p.1 = stripSeven k
            · exfalso
              apply hfresh p hp
              rw [hpk, strHasLeading_recover k hlead]
              exact List.mem_cons_self _ _
            · simp [hpk]
          have hsne : ¬ s = "" := by simpa using hs
          rw [hup, ih (acc ++ [(stripSeven k, s)]) ?fresh hnd.2]
          · simp [acceptedFilters, List.filterMap_cons, hlead, hsne, List.append_assoc]
          case fresh =>
            intro p hp
            rcases List.mem_append.mp hp with hp' | hp'
            · exact fun hc => hfresh p hp' (List.mem_cons_of_mem _ hc)
            · rcases List.mem_singleton.mp hp' with rfl
              rw [strHasLeading_recover k hlead]
              exact hnd.1
    · simp only [hlead, Bool.false_eq_true, if_false]
      rw [ih acc (fun p hp => fun hc => hfresh p hp (List.mem_cons_of_mem _ hc)) hnd.2]
      simp [acceptedFilters, List.filterMap_cons, hlead]

theorem buildFilters_eq_accepted (params : List (String × QueryVal))
    (hnd : (params.map Prod.fst).Nodup) :
    buildFilters params = acceptedFilters params := by
  have h := buildFilters_go params [] (by simp) hnd
  simpa [buildFilters] using h

theorem mem_acceptedFilters (params : List (String × QueryVal)) (f v : String) :
    (f, v) ∈ acceptedFilters params ↔
      ((filterKeyStart ++ f, QueryVal.qStr v) ∈ params ∧ v ≠ "") := by
  unfold acceptedFilters
  rw [List.mem_filterMap]
  constructor
  · rintro ⟨⟨k, val⟩, hkv, hstep⟩
    dsimp only at hstep
    by_cases hlead : strHasLeading filterKeyStart k
    · rw [if_pos hlead] at hstep
      cases val with
      | qArr l => simp at hstep
      | qStr s =>
        by_cases hs : s == ""
        · simp [hs] at hstep
        · simp only [Bool.not_eq_true] at hs
          simp only [hs, Bool.false_eq_true, if_false, Option.some.injEq, Prod.mk.injEq] at hstep
          obtain ⟨hf, hv⟩ := hstep
          constructor
          · rw [← hf, ← hv, strHasLeading_recover k hlead]
            exact hkv
          · rw [← hv]
            intro he
            rw [he] at hs
            simp at hs
    · simp [hlead] at hstep
  · rintro ⟨hmem, hv⟩
    refine ⟨(filterKeyStart ++ f, QueryVal.qStr v), hmem, ?_⟩
    dsimp only
    rw [if_pos (strHasLeading_append f)]
    have hv' : (v == "") = false := by simp [hv]
    simp [hv', stripSeven_append]

theorem buildWhere_none_keys (q : Option String) :
    ∀ e ∈ buildWhere q none, e.1 = "isDeleted" ∨ e.1 = "OR" := by
  intro e he
  unfold buildWhere at he
  cases q with
  | none =>
    rcases List.mem_singleton.mp he with rfl
    left; rfl
  | some qs =>
    by_cases hq : qs == ""
    · simp only [hq, if_true] at he
      rcases List.mem_singleton.mp he with rfl
      left; rfl
    · simp only [Bool.not_eq_true] at hq
      simp only [hq, Bool.false_eq_true, if_false] at he
      rcases List.mem_cons.mp he with rfl | he'
      · left; rfl
      · rcases List.mem_singleton.mp he' with rfl
        right; rfl

theorem foldl_upsert_fresh (fs : List (String × String)) :
    ∀ (acc : Where),
      (∀ p ∈ fs, ∀ e ∈ acc, (e.1 == p.1) = false) →
      (fs.map Prod.fst).Nodup →
      fs.foldl (fun a p => upsertVal a p.1 (.wStr p.2)) acc =
        acc ++ fs.map (fun p => (p.1, WhereVal.wStr p.2)) := by
  induction fs with
  | nil => intro acc _ _; simp
  | cons p rest ih =>
    intro acc hfresh hnd
    simp only [List.map_cons, List.nodup_cons] at hnd
    rw [List.foldl_cons]
    have hstep : upsertVal acc p.1 (.wStr p.2) = acc ++ [(p.1, .wStr p.2)] :=
      upsertVal_fresh_append _ _ _ (fun e he => hfresh p (List.mem_cons_self _ _) e he)
    rw [hstep]
    have hfresh2 : ∀ q ∈ rest, ∀ e ∈ acc ++ [(p.1, WhereVal.wStr p.2)],
        (e.1 == q.1) = false := by
      intro q hq e he
      rcases List.mem_append.mp he with he' | he'
      · exact hfresh q (List.mem_cons_of_mem _ hq) e he'
      · rcases List.mem_singleton.mp he' with rfl
        have hne : q.1 ≠ p.1 := by
          intro hqp
          exact hnd.1 (hqp ▸ List.mem_map_of_mem Prod.fst hq)
        simp only [beq_eq_false_iff_ne, ne_eq]
        exact fun hpq => hne hpq.symm
    rw [ih _ hfresh2 hnd.2]
    simp [List.append_assoc]

theorem buildWhere_some_split (q : Option String) (fs : List (String × String))
    (h1 : "isDeleted" ∉ fs.map Prod.fst) (h2 : "OR" ∉ fs.map Prod.fst)
    (hnd : (fs.map Prod.fst).Nodup) :
    buildWhere q (some fs) =
      buildWhere q none ++ fs.map (fun p => (p.1, WhereVal.wStr p.2)) := by
  have hdef : buildWhere q (some fs) =
      fs.foldl (fun acc p => upsertVal acc p.1 (.wStr p.2)) (buildWhere q none) := rfl
  rw [hdef]
  apply foldl_upsert_fresh
  · intro p hp e he
    rcases buildWhere_none_keys q e he with hk | hk
    · rw [hk]
      simp only [beq_eq_false_iff_ne, ne_eq]
      intro hpe
      exact h1 (hpe ▸ List.mem_map_of_mem Prod.fst hp)
    · rw [hk]
      simp only [beq_eq_false_iff_ne, ne_eq]
      intro hpe
      exact h2 (hpe ▸ List.mem_map_of_mem Prod.fst hp)
  · exact hnd

theorem evalWhere_base_iff (u : User) (q : Option String) :
    (evalWhere u (buildWhere q none) = .ok true) ↔
      (u.isDeleted = false ∧ searchPasses q u = true) := by
  cases q with
  | none =>
    show evalWhere u [("isDeleted", .wBool false)] = .ok true ↔ _
    simp only [evalWhere, evalWhereEntry, searchPasses]
    constructor
    · intro h
      simp at h
      exact ⟨by simpa using h, by simp [searchPasses]⟩
    · intro h
      simp [h.1]
  | some qs =>
    by_cases hq : qs == ""
    · have hqs : qs = "" := by simpa using hq
      subst hqs
      show evalWhere u [("isDeleted", .wBool false)] = .ok true ↔ _
      simp only [evalWhere, evalWhereEntry, searchPasses]
      constructor
      · intro h
        simp at h
        exact ⟨by simpa using h, by simp [searchPasses]⟩
      · intro h
        simp [h.1]
    · simp only [Bool.not_eq_true] at hq
      have hshow : buildWhere (some qs) none =
          [("isDeleted", .wBool false), ("OR", .wSearch qs)] := by
        simp [buildWhere, hq]
      rw [hshow]
      simp only [evalWhere, evalWhereEntry, searchPasses, hq]
      constructor
      · intro h
        simp at h
        exact ⟨by simpa using h.1, by simpa using h.2⟩
      · intro h
        have h1 : (u.isDeleted == false) = true := by simp [h.1]
        have h2 : matchesSearch u qs = true := by simpa using h.2
        simp [h1, h2]

theorem evalWhere_filters_iff (u : User) (fs : List (String × String)) :
    (∀ e ∈ fs.map (fun p => (p.1, WhereVal.wStr p.2)), evalWhereEntry u e = .ok true) ↔
      (∀ p ∈ fs, evalStrFilter u p.1 p.2 = .ok true) := by
  constructor
  · intro h p hp
    exact h (p.1, .wStr p.2) (List.mem_map_of_mem _ hp)
  · intro h e he
    rw [List.mem_map] at he
    obtain ⟨p, hp, rfl⟩ := he
    exact h p hp

/-- C8 counterexample.  The claim says a `filter_<field>` parameter
whose value is a string is accepted as an equality predicate.  The loop
also requires the value to be TRUTHY, so the empty string — a string —
is silently dropped: `filter_role=\"\"` yields no filter at all. -/
theorem c8_counterexample :
    buildFilters [("filter_role", QueryVal.qStr "")] = [] ∧
    ("role", "") ∉ buildFilters [("filter_role", QueryVal.qStr "")] := by
  have h0 : buildFilters [("filter_role", QueryVal.qStr "")] = [] := rfl
  refine ⟨h0, ?_⟩
  rw [h0]
  exact List.not_mem_nil _

/-- C8 as amended.  For query parameters with distinct names: a
`filter_<field>` parameter is accepted as an equality predicate on
`<field>` (prefix stripped) exactly when its value is a NON-EMPTY
string — non-string and empty-string values are dropped silently; and
the accepted filters are spread into the where object after the
not-soft-deleted predicate and the free-text-search predicate, so that
for filters on fields other than the reserved `isDeleted`/`OR` keys the
clause holds exactly when the record is live AND passes the search AND
satisfies every filter (a filter named `isDeleted` or `OR` would
instead override that predicate). -/
theorem c8_filters_accepted_and_conjoined :
    (∀ (params : List (String × QueryVal)), (params.map Prod.fst).Nodup →
      ∀ (f v : String),
        ((f, v) ∈ buildFilters params ↔
          (filterKeyStart ++ f, QueryVal.qStr v) ∈ params ∧ v ≠ "")) ∧
    (∀ (fs : List (String × String)) (q : Option String) (u : User),
      "isDeleted" ∉ fs.map Prod.fst → "OR" ∉ fs.map Prod.fst →
      (fs.map Prod.fst).Nodup →
      (evalWhere u (buildWhere q (some fs)) = .ok true ↔
        u.isDeleted = false ∧ searchPasses q u = true ∧
          ∀ p ∈ fs, evalStrFilter u p.1 p.2 = .ok true)) := by
  constructor
  · intro params hnd f v
    rw [buildFilters_eq_accepted params hnd]
    exact mem_acceptedFilters params f v
  · intro fs q u h1 h2 hnd
    rw [buildWhere_some_split q fs h1 h2 hnd, evalWhere_ok_true_iff,
      List.forall_mem_append]
    rw [← evalWhere_ok_true_iff, evalWhere_base_iff, evalWhere_filters_iff]
    constructor
    · rintro ⟨⟨ha, hb⟩, hc⟩
      exact ⟨ha, hb, hc⟩
    · rintro ⟨ha, hb, hc⟩
      exact ⟨⟨ha, hb⟩, hc⟩

/-- Witness for C8: `filter_role=driver` among other parameters is
accepted as the equality filter `role = driver`, and on a live driver
with no search query the where clause evaluates to true. -/
theorem c8_witness :
    (("role", "driver") ∈
      buildFilters [("filter_role", QueryVal.qStr "driver"), ("page", QueryVal.qStr "1")]) ∧
    evalWhere { samplePwdUser with role := .driver }
        (buildWhere none (some [("role", "driver")])) = .ok true := by
  constructor
  · exact (c8_filters_accepted_and_conjoined.1
      [("filter_role", QueryVal.qStr "driver"), ("page", QueryVal.qStr "1")]
      (by decide) "role" "driver").mpr ⟨List.mem_cons_self _ _, by decide⟩
  · exact (c8_filters_accepted_and_conjoined.2 [("role", "driver")] none
      { samplePwdUser with role := .driver } (by decide) (by decide) (by decide)).mpr
      ⟨rfl, rfl, by
        intro p hp
        rcases List.mem_singleton.mp hp with rfl
        rfl⟩

/-- C9.  For `page ≥ 1` and `limit ≥ 1`, a successful `getAllUsers`
call skips exactly `(page-1)*limit` of the (sorted) matching records,
returns at most `limit` rows, and its metadata satisfies
`totalPages = ceil(total/limit)` (witnessed by the two bounding
inequalities) and `hasMore = (skip + limit < total)`; and concretely,
with 25 live users and `limit = 10`, pages 1 and 2 have `hasMore=true`,
page 3 has 5 records and `hasMore=false`, and `totalPages = 3`. -/
theorem c9_pagination_offset_based :
    (∀ (sortFn : Json → List User → List User) (db : DB) (p : ListParams)
        (page limit : Nat) (data : List Row) (pg : Pagination),
      p.page = some page → 1 ≤ page → p.limit = some limit → 1 ≤ limit →
      getAllUsers sortFn db p = .ok data pg →
      ∃ (ob : Json) (sel : Sel) (m : List User),
        buildOrderBy p.sort (p.order.getD .desc) = .ok ob ∧
        fieldSelections p.fields = .ok sel ∧
        matchedUsers db (buildWhere p.query p.filters) = .ok m ∧
        mapRows (applySelect sel)
          (((sortFn ob m).drop ((page - 1) * limit)).take limit) = .ok data ∧
        data.length ≤ limit ∧
        pg.total = m.length ∧ pg.page = page ∧ pg.limit = limit ∧
        pg.totalPages = (m.length + limit - 1) / limit ∧
        pg.total ≤ pg.totalPages * limit ∧
        (0 < pg.total → (pg.totalPages - 1) * limit < pg.total) ∧
        pg.hasMore = decide ((page - 1) * limit + limit < m.length)) ∧
    (∃ d1 g1, getAllUsers keepOrder listedUsers25 (pageParams 1) = .ok d1 g1 ∧
      d1.length = 10 ∧ g1.hasMore = true ∧ g1.totalPages = 3 ∧ g1.total = 25) ∧
    (∃ d2 g2, getAllUsers keepOrder listedUsers25 (pageParams 2) = .ok d2 g2 ∧
      g2.hasMore = true) ∧
    (∃ d3 g3, getAllUsers keepOrder listedUsers25 (pageParams 3) = .ok d3 g3 ∧
      d3.length = 5 ∧ g3.hasMore = false ∧ g3.totalPages = 3) := by
  refine ⟨?_, ?_, ?_, ?_⟩
  · intro sortFn db p page limit data pg hpage hp1 hlimit hl1 h
    simp only [getAllUsers, hpage, hlimit, Option.getD_some] at h
    cases hOB : buildOrderBy p.sort (p.order.getD .desc) with
    | error e => rw [hOB] at h; simp at h
    | ok ob =>
      rw [hOB] at h
      dsimp only at h
      cases hFS : fieldSelections p.fields with
      | error e => rw [hFS] at h; simp at h
      | ok sel =>
        rw [hFS] at h
        dsimp only at h
        cases hM : matchedUsers db (buildWhere p.query p.filters) with
        | error e => rw [hM] at h; simp at h
        | ok m =>
          rw [hM] at h
          dsimp only at h
          cases hRows : mapRows (applySelect sel)
              (((sortFn ob m).drop ((page - 1) * limit)).take limit) with
          | error e => rw [hRows] at h; simp at h
          | ok rows =>
            rw [hRows] at h
            simp only [ListResult.ok.injEq] at h
            obtain ⟨hdata, hpg⟩ := h
            refine ⟨ob, sel, m, rfl, rfl, rfl, ?_, ?_, ?_, ?_, ?_, ?_, ?_, ?_, ?_⟩
            · rw [← hdata]
              exact hRows
            · rw [← hdata]
              have hlen := mapRows_ok_length (applySelect sel) _ rows hRows
              rw [hlen, List.length_take]
              exact min_le_left _ _
            · rw [← hpg]
            · rw [← hpg]
            · rw [← hpg]
            · rw [← hpg]
            · rw [← hpg]
              exact ceilNat_mul_ge m.length limit hl1
            · rw [← hpg]
              intro ht
              exact ceilNat_pred_mul_lt m.length limit hl1 ht
            · rw [← hpg]
  · exact ⟨_, _, rfl, rfl, rfl, rfl, rfl⟩
  · exact ⟨_, _, rfl, rfl⟩
  · exact ⟨_, _, rfl, rfl, rfl, rfl⟩

/-- Witness for C9: page 2 of the 25-user listing at limit 10. -/
theorem c9_witness :
    ∃ (ob : Json) (sel : Sel) (m : List User),
      buildOrderBy (pageParams 2).sort ((pageParams 2).order.getD .desc) = .ok ob ∧
      fieldSelections (pageParams 2).fields = .ok sel ∧
      matchedUsers listedUsers25
        (buildWhere (pageParams 2).query (pageParams 2).filters) = .ok m ∧
      mapRows (applySelect sel)
        (((keepOrder ob m).drop ((2 - 1) * 10)).take 10) = .ok c9data2 ∧
      c9data2.length ≤ 10 ∧
      c9pag2.total = m.length ∧ c9pag2.page = 2 ∧ c9pag2.limit = 10 ∧
      c9pag2.totalPages = (m.length + 10 - 1) / 10 ∧
      c9pag2.total ≤ c9pag2.totalPages * 10 ∧
      (0 < c9pag2.total → (c9pag2.totalPages - 1) * 10 < c9pag2.total) ∧
      c9pag2.hasMore = decide ((2 - 1) * 10 + 10 < m.length) :=
  c9_pagination_offset_based.1 keepOrder listedUsers25 (pageParams 2) 2 10 c9data2 c9pag2
    rfl (by decide) rfl (by decide) rfl

/-- C10.  A `fields` list naming a top-level field and, later, a
dot-path nested under that same field makes the projection reduce
throw: after the plain token binds the field to the boolean `true`, the
dot-path token reads `.select` off that boolean and dereferences the
resulting `undefined`.  Both read services catch the throw and return
the generic `{success: false, message: "Server error"}` failure. -/
theorem c10_nested_after_plain_crashes
    (s a b f : String) (cks pre mid post : List String)
    (hs : s ≠ "")
    (htoks : tokensOf s = pre ++ a :: (mid ++ b :: post))
    (ha : strSplitOn '.' (strTrim a) = [f])
    (hb : strSplitOn '.' (strTrim b) = f :: cks)
    (hcks : cks ≠ []) :
    fieldSelections (some s) = .error () ∧
    (∀ (sortFn : Json → List User → List User) (db : DB) (p : ListParams),
      p.fields = some s → getAllUsers sortFn db p = .fail "Server error") ∧
    (∀ (db : DB) (uid : String), getUserById db uid (some s) = .fail "Server error") := by
  have hses : (s == "") = false := by simp [hs]
  have hfe : fieldSelections (some s) = .error () := by
    simp only [fieldSelections, hses, Bool.false_eq_true, if_false, buildSel]
    rw [htoks, buildSelGo_append]
    cases hpre : buildSelGo pre [("id", .leaf)] with
    | error e => cases e; rfl
    | ok acc0 =>
      dsimp only
      simp only [buildSelGo, ha]
      have hstep : insertChain acc0 [f] = .ok (upsertVal acc0 f .leaf) := rfl
      rw [hstep]
      dsimp only
      rw [buildSelGo_append]
      cases hmid : buildSelGo mid (upsertVal acc0 f .leaf) with
      | error e => cases e; rfl
      | ok acc2 =>
        dsimp only
        have hlf : lookupVal acc2 f = some .leaf :=
          buildSelGo_leaf_invariant f mid _ acc2 (lookupVal_upsert_self _ _ _) hmid
        cases cks with
        | nil => exact absurd rfl hcks
        | cons c cs =>
          simp only [buildSelGo, hb]
          rw [insertChain_leaf_head_error acc2 f c cs hlf]
  refine ⟨hfe, ?_, ?_⟩
  · intro sortFn db p hp
    simp only [getAllUsers, hp]
    cases hOB : buildOrderBy p.sort (p.order.getD .desc) with
    | error e => rfl
    | ok ob =>
      dsimp only
      rw [hfe]
  · intro db uid
    simp only [getUserById, hfe]

/-- Witness for C10: `fields = "metadata,metadata.phone"`. -/
theorem c10_witness :
    fieldSelections (some "metadata,metadata.phone") = .error () ∧
    getAllUsers keepOrder [samplePwdUser]
      { defaultParams with fields := some "metadata,metadata.phone" } =
        .fail "Server error" ∧
    getUserById [samplePwdUser] "p1" (some "metadata,metadata.phone") =
      .fail "Server error" := by
  have h := c10_nested_after_plain_crashes "metadata,metadata.phone" "metadata"
    "metadata.phone" "metadata" ["phone"] [] [] [] (by decide) rfl rfl rfl
    (by intro hc; cases hc)
  exact ⟨h.1, h.2.1 keepOrder [samplePwdUser]
    { defaultParams with fields := some "metadata,metadata.phone" } rfl,
    h.2.2 [samplePwdUser] "p1"⟩

end PrismX
